import Mathlib

/-!
Verification of the Laplacian-pyramid image-processing module (`filtering.py`).

The numeric samples of numpy arrays are modelled as exact rationals (`ℚ`) for
the combinatorial/pyramid claims and as real numbers (`ℝ`) where the source
uses `np.e`/`np.pi` (the Gaussian kernel and the operators built on it); this
is the usual "floating-point tolerance aside" reading of the specification.

A rank-2 numpy array is an `Img2`: a height, a width and a total indexing
function (indices outside the rectangle return junk that no operation ever
lets flow into a result; padding and output-initialisation guards below make
that explicit).  A rank-3 array is an `Img3` with a channel count.  Arrays of
arbitrary rank, needed for the rank-dispatch behaviour of
`cross_correlation_2d`, are modelled by `NdArray` (a dtype tag, a shape and a
flat multi-index function).
-/

/-- A rank-2 numpy array (height x width) of `α`-valued samples. -/
@[ext] structure Img2 (α : Type) where
  H : ℕ
  W : ℕ
  px : ℕ → ℕ → α

/-- A rank-3 numpy array (height x width x channels) of `α`-valued samples. -/
@[ext] structure Img3 (α : Type) where
  H : ℕ
  W : ℕ
  C : ℕ
  px : ℕ → ℕ → ℕ → α

variable {α : Type} [CommRing α]

/-- Elementwise numpy addition (`a + b`); the operands always have equal
shapes at the call sites modelled here, so the result carries `a`'s shape. -/
instance : Add (Img2 α) :=
  ⟨fun a b => ⟨a.H, a.W, fun y x => a.px y x + b.px y x⟩⟩

/-- Elementwise numpy subtraction (`a - b`). -/
instance : Sub (Img2 α) :=
  ⟨fun a b => ⟨a.H, a.W, fun y x => a.px y x - b.px y x⟩⟩

/-- Elementwise numpy addition for rank-3 arrays. -/
instance : Add (Img3 α) :=
  ⟨fun a b => ⟨a.H, a.W, a.C, fun y x c => a.px y x c + b.px y x c⟩⟩

/-- Elementwise numpy subtraction for rank-3 arrays. -/
instance : Sub (Img3 α) :=
  ⟨fun a b => ⟨a.H, a.W, a.C, fun y x c => a.px y x c - b.px y x c⟩⟩

/-- Scaling a rank-3 array by a scalar (`img *= w`, `filtering.py` line 224). -/
def Img3.scale (a : Img3 α) (w : α) : Img3 α :=
  ⟨a.H, a.W, a.C, fun y x c => a.px y x c * w⟩

/-- The 2-D slice of a rank-3 array at a fixed channel (`arr[:, :, c]`). -/
def Img3.plane (a : Img3 α) (c : ℕ) : Img2 α :=
  ⟨a.H, a.W, fun y x => a.px y x c⟩

/-- `np.pad(a, ((pm,pm),(pn,pn)), mode='constant')`: zero padding by `pm`
rows on top/bottom and `pn` columns on left/right (`filtering.py` line 34). -/
def np_pad2 (a : Img2 α) (pm pn : ℕ) : Img2 α :=
  ⟨a.H + 2 * pm, a.W + 2 * pn, fun y x =>
    if pm ≤ y ∧ y < pm + a.H ∧ pn ≤ x ∧ x < pn + a.W then
      a.px (y - pm) (x - pn)
    else 0⟩

/-- `np.pad(a, ((pm,pm),(pn,pn),(0,0)), mode='constant')`: zero padding of a
rank-3 array along rows and columns only (`filtering.py` line 47). -/
def np_pad3 (a : Img3 α) (pm pn : ℕ) : Img3 α :=
  ⟨a.H + 2 * pm, a.W + 2 * pn, a.C, fun y x c =>
    if pm ≤ y ∧ y < pm + a.H ∧ pn ≤ x ∧ x < pn + a.W then
      a.px (y - pm) (x - pn) c
    else 0⟩

/-- The window `a[y0:y0+h, x0:x0+w]` (in-range at every call site modelled). -/
def np_slice2 (a : Img2 α) (y0 x0 h w : ℕ) : Img2 α :=
  ⟨h, w, fun y x => a.px (y0 + y) (x0 + x)⟩

/-- Elementwise product `a * b` of two equal-shaped rank-2 arrays. -/
def np_mul2 (a b : Img2 α) : Img2 α :=
  ⟨a.H, a.W, fun y x => a.px y x * b.px y x⟩

/-- `np.sum` over all entries of a rank-2 array. -/
def np_sum2 (a : Img2 α) : α :=
  ∑ y ∈ Finset.range a.H, ∑ x ∈ Finset.range a.W, a.px y x

/-- `kernel[::-1, ::-1]`: reversal of a rank-2 kernel along both axes
(`filtering.py` line 70). -/
def np_flip2 (a : Img2 α) : Img2 α :=
  ⟨a.H, a.W, fun y x => a.px (a.H - 1 - y) (a.W - 1 - x)⟩

/-- `kernel1d.T`: numpy transposition of a rank-2 array. -/
def np_transpose2 (a : Img2 α) : Img2 α :=
  ⟨a.W, a.H, fun y x => a.px x y⟩

/-- `cross_correlation_2d` (`filtering.py` lines 5-55), rank-2 branch.
`out_img` is initialised to `np.zeros_like(img, dtype='float64')` and the
loop fills exactly the pixels `h < img_h`, `w < img_w` with
`np.sum(kernel * img_pad[h:h+full_m, w:w+full_n])`, where
`half_m = kernel.H // 2`, `half_n = kernel.W // 2` and `img_pad` is the
zero-padded image; the guard below reproduces the zero initialisation. -/
def cross_correlation_2d_r2 (img kernel : Img2 α) : Img2 α :=
  ⟨img.H, img.W, fun h w =>
    if h < img.H ∧ w < img.W then
      np_sum2 (np_mul2 kernel
        (np_slice2 (np_pad2 img (kernel.H / 2) (kernel.W / 2)) h w kernel.H kernel.W))
    else 0⟩

/-- `cross_correlation_2d` (`filtering.py` lines 39-53), rank-3 branch.
The source writes `out_img[h,w,0]`, `out_img[h,w,1]` and `out_img[h,w,2]`
unconditionally, i.e. exactly the channels `c < 3` receive the per-channel
window sum; any further channels keep their `np.zeros_like` initial value.
(On inputs with fewer than 3 channels the source raises `IndexError`; that
error case is outside every computation modelled below, which restrict to
`3 ≤ C` where the channel count matters.) -/
def cross_correlation_2d_r3 (img : Img3 α) (kernel : Img2 α) : Img3 α :=
  ⟨img.H, img.W, img.C, fun h w c =>
    if h < img.H ∧ w < img.W ∧ c < 3 then
      np_sum2 (np_mul2 kernel
        (np_slice2 ((np_pad3 img (kernel.H / 2) (kernel.W / 2)).plane c) h w kernel.H kernel.W))
    else 0⟩

/-- `convolve_2d` (`filtering.py` lines 57-71), rank-2 branch:
correlation against the doubly-flipped kernel. -/
def convolve_2d_r2 (img kernel : Img2 α) : Img2 α :=
  cross_correlation_2d_r2 img (np_flip2 kernel)

/-- `convolve_2d`, rank-3 branch. -/
def convolve_2d_r3 (img : Img3 α) (kernel : Img2 α) : Img3 α :=
  cross_correlation_2d_r3 img (np_flip2 kernel)

/-- `separable_filter` (`filtering.py` lines 156-157), rank-2 branch:
`cross_correlation_2d(cross_correlation_2d(img, kernel1d), kernel1d.T)`. -/
def separable_filter2 (img kernel1d : Img2 α) : Img2 α :=
  cross_correlation_2d_r2 (cross_correlation_2d_r2 img kernel1d) (np_transpose2 kernel1d)

/-- `separable_filter`, rank-3 branch. -/
def separable_filter3 (img : Img3 α) (kernel1d : Img2 α) : Img3 α :=
  cross_correlation_2d_r3 (cross_correlation_2d_r3 img kernel1d) (np_transpose2 kernel1d)

/-- Specification formula of section 4.1 for a rank-2 image: the sum of
elementwise products between the unflipped kernel and the co-located
window of the image zero-padded by `kernel.H/2` rows on top/bottom and
`kernel.W/2` columns on left/right. -/
def spec_corr2 (img kernel : Img2 α) (h w : ℕ) : α :=
  ∑ i ∈ Finset.range kernel.H, ∑ j ∈ Finset.range kernel.W,
    kernel.px i j *
      (if kernel.H / 2 ≤ h + i ∧ h + i < kernel.H / 2 + img.H ∧
          kernel.W / 2 ≤ w + j ∧ w + j < kernel.W / 2 + img.W then
        img.px (h + i - kernel.H / 2) (w + j - kernel.W / 2)
      else 0)

/-- Specification formula of section 4.1 for one channel of a rank-3 image. -/
def spec_corr3 (img : Img3 α) (kernel : Img2 α) (h w c : ℕ) : α :=
  ∑ i ∈ Finset.range kernel.H, ∑ j ∈ Finset.range kernel.W,
    kernel.px i j *
      (if kernel.H / 2 ≤ h + i ∧ h + i < kernel.H / 2 + img.H ∧
          kernel.W / 2 ≤ w + j ∧ w + j < kernel.W / 2 + img.W then
        img.px (h + i - kernel.H / 2) (w + j - kernel.W / 2) c
      else 0)

/-- Specification formula of section 4.3: the outer product of a 1-by-n row
kernel with itself, entry `(i, j) = kernel[0, i] * kernel[0, j]`. -/
def outer_self (kernel : Img2 α) : Img2 α :=
  ⟨kernel.W, kernel.W, fun i j => kernel.px 0 i * kernel.px 0 j⟩

/-- `gaussian_blur_kernel_2d` before normalisation (`filtering.py` lines
95-99): entry `(y, x)` is
`(1/(2*pi*sigma)) * e^(-((x - width//2)^2 + (y - height//2)^2)/(2*sigma^2))`.
The formula is evaluated at every index (the loop fills exactly the
`height x width` rectangle; only those entries are ever summed or read). -/
noncomputable def gaussian_blur_raw (sigma : ℝ) (height width : ℕ) : Img2 ℝ :=
  ⟨height, width, fun y x =>
    (1 / (2 * Real.pi * sigma)) *
      Real.exp (-(((x : ℝ) - (width / 2 : ℕ)) ^ 2 + ((y : ℝ) - (height / 2 : ℕ)) ^ 2) /
        (2 * sigma ^ 2))⟩

/-- `gaussian_blur_kernel_2d` (`filtering.py` lines 73-103):
`norm_filter = filter / np.sum(filter)`. -/
noncomputable def gaussian_blur_kernel_2d (sigma : ℝ) (height width : ℕ) : Img2 ℝ :=
  ⟨height, width, fun y x =>
    (gaussian_blur_raw sigma height width).px y x /
      np_sum2 (gaussian_blur_raw sigma height width)⟩

/-- `low_pass` (`filtering.py` lines 106-116), rank-2 branch. -/
noncomputable def low_pass2 (img : Img2 ℝ) (sigma : ℝ) (size : ℕ) : Img2 ℝ :=
  convolve_2d_r2 img (gaussian_blur_kernel_2d sigma size size)

/-- `high_pass` (`filtering.py` lines 118-127), rank-2 branch:
`img - convolve_2d(img, gaussian_blur_kernel_2d(sigma, size, size))`. -/
noncomputable def high_pass2 (img : Img2 ℝ) (sigma : ℝ) (size : ℕ) : Img2 ℝ :=
  img - convolve_2d_r2 img (gaussian_blur_kernel_2d sigma size size)

/-- `low_pass`, rank-3 branch. -/
noncomputable def low_pass3 (img : Img3 ℝ) (sigma : ℝ) (size : ℕ) : Img3 ℝ :=
  convolve_2d_r3 img (gaussian_blur_kernel_2d sigma size size)

/-- `high_pass`, rank-3 branch. -/
noncomputable def high_pass3 (img : Img3 ℝ) (sigma : ℝ) (size : ℕ) : Img3 ℝ :=
  img - convolve_2d_r3 img (gaussian_blur_kernel_2d sigma size size)

/-- The numpy dtype tags relevant to this module. -/
inductive DType where
  | uint8
  | float32
  | float64
deriving DecidableEq

/-- A decoded image buffer together with its dtype tag, as handed to
`create_hybrid_image`.  Sample values are modelled exactly (uint8 samples
are naturals embedded in `ℝ`); the tag records the numpy dtype. -/
structure DImg where
  dtype : DType
  data : Img3 ℝ

/-- The dtype-normalisation stage of `create_hybrid_image` (`filtering.py`
lines 136-138): `if img1.dtype == np.uint8:` both images are converted with
`astype(np.float32) / 255.0`; otherwise both are left untouched.  Only
`img1`'s dtype is consulted. -/
noncomputable def hybrid_normalize (img1 img2 : DImg) : DImg × DImg :=
  if img1.dtype = DType.uint8 then
    (⟨DType.float32, ⟨img1.data.H, img1.data.W, img1.data.C,
        fun y x c => img1.data.px y x c / 255⟩⟩,
     ⟨DType.float32, ⟨img2.data.H, img2.data.W, img2.data.C,
        fun y x c => img2.data.px y x c / 255⟩⟩)
  else (img1, img2)

/-- `(v * 255).clip(0, 255).astype(np.uint8)` applied to one sample:
clip to `[0, 255]`, then truncate to an integer (truncation toward zero
coincides with `Int.floor` on the clipped non-negative value). -/
noncomputable def quantize_uint8 (v : ℝ) : ℝ :=
  ((Int.floor (min (max (v * 255) 0) 255) : ℤ) : ℝ)

/-- `create_hybrid_image` (`filtering.py` lines 129-153), on rank-3 buffers. -/
noncomputable def create_hybrid_image (img1 img2 : DImg) (sigma1 : ℝ) (size1 : ℕ)
    (high_low1 : String) (sigma2 : ℝ) (size2 : ℕ) (high_low2 : String)
    (mixin_ratio : ℝ) : DImg :=
  let p := hybrid_normalize img1 img2
  let f1 := if high_low1.toLower = "low" then low_pass3 p.1.data sigma1 size1
            else high_pass3 p.1.data sigma1 size1
  let f2 := if high_low2.toLower = "low" then low_pass3 p.2.data sigma2 size2
            else high_pass3 p.2.data sigma2 size2
  let hybrid := Img3.scale f1 (2 * (1 - mixin_ratio)) + Img3.scale f2 (2 * mixin_ratio)
  ⟨DType.uint8, ⟨hybrid.H, hybrid.W, hybrid.C, fun y x c => quantize_uint8 (hybrid.px y x c)⟩⟩

/-- The fixed 5-tap binomial smoothing kernel
`np.array([0.0625, 0.25, 0.375, 0.25, 0.0625]).reshape((1, 5))`
(`filtering.py` line 171); all five values are exactly representable. -/
def blur_1d : Img2 ℚ :=
  ⟨1, 5, fun _ x =>
    if x = 0 then 1 / 16 else if x = 1 then 1 / 4 else if x = 2 then 3 / 8
    else if x = 3 then 1 / 4 else if x = 4 then 1 / 16 else 0⟩

/-- `blurImg[::2, ::2, :]` (`filtering.py` line 178): keep every second row
and column starting at index 0, halving both dimensions (rounding up). -/
def np_decimate2 (a : Img3 ℚ) : Img3 ℚ :=
  ⟨(a.H + 1) / 2, (a.W + 1) / 2, a.C, fun y x c => a.px (2 * y) (2 * x) c⟩

/-- Nearest-neighbour 2x upsampling (`filtering.py` lines 188-190 and
217-219): `upImg = np.zeros((2*H, 2*W, 3))` and then
`upImg[io::2, jo::2, :] = currImg` for all four phase offsets, so every
output position `(y, x, c)` with `y < 2*H`, `x < 2*W`, `c < 3` holds
`currImg[y//2, x//2, c]`; positions outside keep the zero initialisation. -/
def upsample_nn (a : Img3 ℚ) : Img3 ℚ :=
  ⟨2 * a.H, 2 * a.W, 3, fun y x c =>
    if y < 2 * a.H ∧ x < 2 * a.W ∧ c < 3 then a.px (y / 2) (x / 2) c else 0⟩

/-- The Gaussian pyramid of `construct_laplacian` (`filtering.py` lines
172-179): level 0 is the input; level `k+1` is the separably-blurred level
`k` decimated by 2 in both axes. -/
def gau_pyr (img : Img3 ℚ) : ℕ → Img3 ℚ
  | 0 => img
  | k + 1 => np_decimate2 (separable_filter3 (gau_pyr img k) blur_1d)

/-- `construct_laplacian` (`filtering.py` lines 159-193).  The `assert`
on line 169 is modelled by returning `none` when the divisibility
precondition fails, before any level is built.  The loop on lines 185-191
runs `currLev` from `levels-1` down to `1`, inserting
`gau_pyr[currLev-1] - upsample(gau_pyr[currLev])` at the front each time,
which produces exactly the list below. -/
def construct_laplacian (img : Img3 ℚ) (levels : ℕ) : Option (List (Img3 ℚ)) :=
  if img.H % 2 ^ (levels - 1) = 0 ∧ img.W % 2 ^ (levels - 1) = 0 then
    some ((List.range (levels - 1)).map
        (fun k => gau_pyr img k - upsample_nn (gau_pyr img (k + 1)))
      ++ [gau_pyr img (levels - 1)])
  else none

/-- The accumulation loop shared by both branches of `reconstruct_laplacian`
(`filtering.py` lines 214-220 and 226-232): from the coarsest level upward,
upsample the running reconstruction and add it into the next-finer level.
The empty case is unreachable from `reconstruct_laplacian` (which rejects
empty pyramids) and returns an empty image. -/
def reconstruct_sum : List (Img3 ℚ) → Img3 ℚ
  | [] => ⟨0, 0, 0, fun _ _ _ => 0⟩
  | [a] => a
  | a :: rest => a + upsample_nn (reconstruct_sum rest)

/-- `reconstruct_laplacian` (`filtering.py` lines 195-234).  The source
deep-copies the pyramid and then accumulates in place inside the copy; in
this pure model the copy is the identity.  An empty pyramid raises
`IndexError` in the source (line 210), modelled as `none`; likewise a
weights list shorter than the pyramid raises on line 224. -/
def reconstruct_laplacian (pyr : List (Img3 ℚ)) (weights : Option (List ℚ)) :
    Option (Img3 ℚ) :=
  match pyr with
  | [] => none
  | a :: rest =>
    match weights with
    | none => some (reconstruct_sum (a :: rest))
    | some ws =>
      if (a :: rest).length ≤ ws.length then
        some (reconstruct_sum (List.zipWith (fun im w => Img3.scale im w) (a :: rest) ws))
      else none

/-- Provenance of a buffer relative to the caller-supplied input image:
either it is (a view of) the caller's array, or it was freshly allocated
inside the module. -/
inductive BufProv where
  | input
  | fresh
deriving DecidableEq

/-- Provenance of `separable_filter`'s result: `cross_correlation_2d`
always allocates a fresh `out_img` (`filtering.py` line 25), so the result
never aliases its argument. -/
def separable_filter_prov (_p : BufProv) : BufProv := BufProv.fresh

/-- Provenance of `blurImg[::2, ::2, :]`: numpy basic slicing returns a
view of the same buffer. -/
def decimate_prov (p : BufProv) : BufProv := p

/-- Provenance of the Gaussian-pyramid levels: level 0 is the caller's
array itself (`gau_pyr.append(img)`, `filtering.py` line 173); deeper
levels are views of freshly allocated blur outputs. -/
def gau_pyr_prov : ℕ → BufProv
  | 0 => BufProv.input
  | k + 1 => decimate_prov (separable_filter_prov (gau_pyr_prov k))

/-- Provenance of the list returned by `construct_laplacian`: the first
`levels-1` entries are freshly allocated subtraction results
(`filtering.py` line 191); the last entry is Gaussian level `levels-1`
itself (line 182). -/
def construct_laplacian_prov (levels : ℕ) : List BufProv :=
  (List.range (levels - 1)).map (fun _ => BufProv.fresh) ++ [gau_pyr_prov (levels - 1)]

/-- A numpy array of arbitrary rank: a dtype tag, a shape, and a total
multi-index valuation (indices off the shape return junk never read). -/
structure NdArray where
  dtype : DType
  shape : List ℕ
  val : List ℕ → ℚ

/-- `np.zeros_like(img, dtype='float64')` (`filtering.py` line 25). -/
def np_zeros_like (a : NdArray) : NdArray :=
  ⟨DType.float64, a.shape, fun _ => 0⟩

/-- View an `NdArray` of shape `[h, w]` as an `Img2`. -/
def NdArray.toImg2 (a : NdArray) (h w : ℕ) : Img2 ℚ :=
  ⟨h, w, fun y x => a.val [y, x]⟩

/-- View an `NdArray` of shape `[h, w, c]` as an `Img3`. -/
def NdArray.toImg3 (a : NdArray) (h w c : ℕ) : Img3 ℚ :=
  ⟨h, w, c, fun y x ch => a.val [y, x, ch]⟩

/-- Repack a rank-2 result as a float64 `NdArray` (the result buffer of
`cross_correlation_2d` is always `np.zeros_like(img, dtype='float64')`). -/
def Img2.toNd (a : Img2 ℚ) : NdArray :=
  ⟨DType.float64, [a.H, a.W], fun idx =>
    match idx with
    | [y, x] => if y < a.H ∧ x < a.W then a.px y x else 0
    | _ => 0⟩

/-- Repack a rank-3 result as a float64 `NdArray`. -/
def Img3.toNd (a : Img3 ℚ) : NdArray :=
  ⟨DType.float64, [a.H, a.W, a.C], fun idx =>
    match idx with
    | [y, x, c] => if y < a.H ∧ x < a.W ∧ c < a.C then a.px y x c else 0
    | _ => 0⟩

/-- `cross_correlation_2d` with its rank dispatch (`filtering.py` lines
24-55): `out_img = np.zeros_like(img, dtype='float64')`; the rank-2 and
rank-3 branches fill it as modelled by `cross_correlation_2d_r2` /
`cross_correlation_2d_r3`; for any other rank neither branch runs and the
untouched zero buffer is returned.  `none` marks the runs that raise in
the source: unpacking `kernel.shape` into two variables fails for kernels
that are not rank-2, and the rank-3 branch writes channel index 2, which
raises for inputs with fewer than 3 channels. -/
def cross_correlation_2d_nd (img kernel : NdArray) : Option NdArray :=
  match img.shape with
  | [h, w] =>
    match kernel.shape with
    | [m, n] =>
      some (Img2.toNd (cross_correlation_2d_r2 (img.toImg2 h w) (kernel.toImg2 m n)))
    | _ => none
  | [h, w, c] =>
    match kernel.shape with
    | [m, n] =>
      if 3 ≤ c then
        some (Img3.toNd (cross_correlation_2d_r3 (img.toImg3 h w c) (kernel.toImg2 m n)))
      else none
    | _ => none
  | _ => some (np_zeros_like img)

/-- A small concrete rank-2 test image. -/
def t2img : Img2 ℚ := ⟨2, 3, fun y x => (y : ℚ) + 2 * x + 1⟩

/-- A small concrete 3-channel rank-3 test image with even dimensions. -/
def t3img : Img3 ℚ := ⟨2, 2, 3, fun y x c => (y : ℚ) + 2 * x + 3 * c + 1⟩

/-- A concrete 1-by-3 row kernel. -/
def t3ker : Img2 ℚ := ⟨1, 3, fun _ x => (x : ℚ) + 1⟩

/-- A concrete all-ones rank-3 image with FOUR channels. -/
def cex4img : Img3 ℚ := ⟨1, 1, 4, fun _ _ _ => 1⟩

/-- The concrete 1-by-1 identity kernel (odd in both dimensions). -/
def cex1ker : Img2 ℚ := ⟨1, 1, fun _ _ => 1⟩

/-- A concrete floating-point input image for `create_hybrid_image`. -/
noncomputable def cexFloatImg : DImg := ⟨DType.float32, ⟨1, 1, 3, fun _ _ _ => 1 / 2⟩⟩

/-- A concrete uint8 input image for `create_hybrid_image`, sample value 255. -/
noncomputable def cexUintImg : DImg := ⟨DType.uint8, ⟨1, 1, 3, fun _ _ _ => 255⟩⟩

/-- A concrete rank-1 array. -/
def rank1arr : NdArray := ⟨DType.uint8, [5], fun _ => 7⟩

/-- A concrete rank-2 1-by-1 kernel as an `NdArray`. -/
def rank2ker : NdArray := ⟨DType.float64, [1, 1], fun _ => 1⟩

/-- A concrete real-valued rank-2 image. -/
noncomputable def r2img : Img2 ℝ := ⟨1, 1, fun _ _ => 2⟩

/-- A concrete real-valued rank-3 image. -/
noncomputable def r3img : Img3 ℝ := ⟨1, 1, 3, fun _ _ _ => 2⟩

theorem cc2_H (img kernel : Img2 α) : (cross_correlation_2d_r2 img kernel).H = img.H := rfl

theorem cc2_W (img kernel : Img2 α) : (cross_correlation_2d_r2 img kernel).W = img.W := rfl

theorem np_pad2_px (a : Img2 α) (pm pn y x : ℕ) :
    (np_pad2 a pm pn).px y x =
      if pm ≤ y ∧ y < pm + a.H ∧ pn ≤ x ∧ x < pn + a.W then a.px (y - pm) (x - pn)
      else 0 := rfl

theorem cc2_px (img kernel : Img2 α) (h w : ℕ) :
    (cross_correlation_2d_r2 img kernel).px h w =
      if h < img.H ∧ w < img.W then
        ∑ i ∈ Finset.range kernel.H, ∑ j ∈ Finset.range kernel.W,
          kernel.px i j * (np_pad2 img (kernel.H / 2) (kernel.W / 2)).px (h + i) (w + j)
      else 0 := rfl

theorem pad3_plane (a : Img3 α) (pm pn c : ℕ) :
    (np_pad3 a pm pn).plane c = np_pad2 (a.plane c) pm pn := rfl

theorem cc3_px_plane (img : Img3 α) (kernel : Img2 α) (h w c : ℕ) (hc : c < 3) :
    (cross_correlation_2d_r3 img kernel).px h w c =
      (cross_correlation_2d_r2 (img.plane c) kernel).px h w := by
  show (if h < img.H ∧ w < img.W ∧ c < 3 then
          np_sum2 (np_mul2 kernel
            (np_slice2 ((np_pad3 img (kernel.H / 2) (kernel.W / 2)).plane c) h w
              kernel.H kernel.W))
        else 0) =
      (if h < img.H ∧ w < img.W then
          np_sum2 (np_mul2 kernel
            (np_slice2 (np_pad2 (img.plane c) (kernel.H / 2) (kernel.W / 2)) h w
              kernel.H kernel.W))
        else 0)
  rw [pad3_plane]
  by_cases hb : h < img.H ∧ w < img.W
  · rw [if_pos ⟨hb.1, hb.2, hc⟩, if_pos hb]
  · rw [if_neg (by tauto), if_neg hb]

theorem cc3_px_out (img : Img3 α) (kernel : Img2 α) (h w c : ℕ) (hc : 3 ≤ c) :
    (cross_correlation_2d_r3 img kernel).px h w c = 0 := by
  show (if h < img.H ∧ w < img.W ∧ c < 3 then _ else 0) = 0
  rw [if_neg (by omega)]

theorem cc2_spec_px (img kernel : Img2 α) (h w : ℕ) (hh : h < img.H) (hw : w < img.W) :
    (cross_correlation_2d_r2 img kernel).px h w = spec_corr2 img kernel h w := by
  rw [cc2_px, if_pos ⟨hh, hw⟩]
  rfl

theorem cc3_spec_px (img : Img3 α) (kernel : Img2 α) (h w c : ℕ)
    (hh : h < img.H) (hw : w < img.W) (hc : c < 3) :
    (cross_correlation_2d_r3 img kernel).px h w c = spec_corr3 img kernel h w c := by
  rw [cc3_px_plane img kernel h w c hc, cc2_px, if_pos ⟨hh, hw⟩]
  rfl

/-- C2 (amended): for every rank-2 image and odd kernel,
`cross_correlation_2d` preserves the shape and every output pixel is the sum
of elementwise products between the unflipped kernel and the co-located
window of the zero-padded image; the same holds per channel for rank-3
images with exactly 3 channels; and every buffer the function returns is
float64.  (The claim's blanket quantification over all rank-3 images fails:
channels beyond the first three are returned as zeros, see the
counterexample.) -/
theorem claim2_correlation_contract :
    (∀ (img kernel : Img2 ℚ), Odd kernel.H → Odd kernel.W →
      (cross_correlation_2d_r2 img kernel).H = img.H ∧
      (cross_correlation_2d_r2 img kernel).W = img.W ∧
      ∀ h < img.H, ∀ w < img.W,
        (cross_correlation_2d_r2 img kernel).px h w = spec_corr2 img kernel h w) ∧
    (∀ (img : Img3 ℚ) (kernel : Img2 ℚ), Odd kernel.H → Odd kernel.W → img.C = 3 →
      (cross_correlation_2d_r3 img kernel).H = img.H ∧
      (cross_correlation_2d_r3 img kernel).W = img.W ∧
      (cross_correlation_2d_r3 img kernel).C = img.C ∧
      ∀ h < img.H, ∀ w < img.W, ∀ c < img.C,
        (cross_correlation_2d_r3 img kernel).px h w c = spec_corr3 img kernel h w c) ∧
    (∀ (img kernel r : NdArray), cross_correlation_2d_nd img kernel = some r →
      r.dtype = DType.float64) := by
  refine ⟨fun img kernel _ _ =>
      ⟨rfl, rfl, fun h hh w hw => cc2_spec_px img kernel h w hh hw⟩,
    fun img kernel _ _ hC =>
      ⟨rfl, rfl, rfl, fun h hh w hw c hc =>
        cc3_spec_px img kernel h w c hh hw (by omega)⟩,
    ?_⟩
  intro img kernel r hr
  rcases img with ⟨d, s, v⟩
  rcases s with _ | ⟨a, s⟩
  · simp only [cross_correlation_2d_nd, np_zeros_like, Option.some.injEq] at hr
    rw [← hr]
  rcases s with _ | ⟨b, s⟩
  · simp only [cross_correlation_2d_nd, np_zeros_like, Option.some.injEq] at hr
    rw [← hr]
  rcases s with _ | ⟨c, s⟩
  · rcases kernel with ⟨kd, ks, kv⟩
    rcases ks with _ | ⟨m, ks⟩
    · simp [cross_correlation_2d_nd] at hr
    rcases ks with _ | ⟨n, ks⟩
    · simp [cross_correlation_2d_nd] at hr
    rcases ks with _ | ⟨o, ks⟩
    · simp only [cross_correlation_2d_nd, Option.some.injEq] at hr
      rw [← hr]; rfl
    · simp [cross_correlation_2d_nd] at hr
  rcases s with _ | ⟨e, s⟩
  · rcases kernel with ⟨kd, ks, kv⟩
    rcases ks with _ | ⟨m, ks⟩
    · simp [cross_correlation_2d_nd] at hr
    rcases ks with _ | ⟨n, ks⟩
    · simp [cross_correlation_2d_nd] at hr
    rcases ks with _ | ⟨o, ks⟩
    · by_cases h3 : 3 ≤ c
      · simp only [cross_correlation_2d_nd, if_pos h3, Option.some.injEq] at hr
        rw [← hr]; rfl
      · simp [cross_correlation_2d_nd, if_neg h3] at hr
    · simp [cross_correlation_2d_nd] at hr
  · simp only [cross_correlation_2d_nd, np_zeros_like, Option.some.injEq] at hr
    rw [← hr]

/-- C2 counterexample: on the all-ones 1x1 image with FOUR channels and the
odd 1x1 all-ones kernel, the output pixel of channel 3 is 0 (the source only
ever writes channels 0, 1 and 2), while the claimed per-channel window sum
is 1.  Hence the claim fails for rank-3 inputs whose channel count is not 3. -/
theorem claim2_counterexample :
    Odd cex1ker.H ∧ Odd cex1ker.W ∧ 3 < cex4img.C ∧
    (cross_correlation_2d_r3 cex4img cex1ker).px 0 0 3 ≠ spec_corr3 cex4img cex1ker 0 0 3 := by
  refine ⟨by decide, by decide, by norm_num [cex4img], ?_⟩
  have hl : (cross_correlation_2d_r3 cex4img cex1ker).px 0 0 3 = 0 :=
    cc3_px_out _ _ _ _ _ (le_refl 3)
  have hr : spec_corr3 cex4img cex1ker 0 0 3 = 1 := by
    simp [spec_corr3, cex4img, cex1ker, Finset.sum_range_one]
    decide
  rw [hl, hr]
  norm_num

/-- C2 witness: the amended contract applied to a concrete 2x2x3 image and
the concrete odd 1x1 kernel, at pixel (1,1), channel 2. -/
theorem claim2_witness :
    (cross_correlation_2d_r3 t3img cex1ker).px 1 1 2 = spec_corr3 t3img cex1ker 1 1 2 :=
  (claim2_correlation_contract.2.1 t3img cex1ker (by decide) (by decide) rfl).2.2.2
    1 (by decide) 1 (by decide) 2 (by decide)

theorem sep2_core (img : Img2 α) (kw : ℕ) (kf : ℕ → ℕ → α) :
    separable_filter2 img ⟨1, kw, kf⟩ =
      cross_correlation_2d_r2 img (outer_self ⟨1, kw, kf⟩) := by
  have h12 : (1 : ℕ) / 2 = 0 := rfl
  refine Img2.ext rfl rfl ?_
  funext h w
  by_cases hb : h < img.H ∧ w < img.W
  · simp only [separable_filter2, cc2_px, np_pad2_px, cc2_H, cc2_W, outer_self, np_transpose2,
      h12, Finset.sum_range_one, if_pos hb, Nat.zero_le, true_and, zero_add, add_zero,
      Nat.sub_zero, hb.1, hb.2, and_true, if_true]
    refine Finset.sum_congr rfl (fun i _ => ?_)
    by_cases hRG : kw / 2 ≤ h + i ∧ h + i < kw / 2 + img.H
    · rw [if_pos hRG, if_pos (show h + i - kw / 2 < img.H by omega), Finset.mul_sum]
      refine Finset.sum_congr rfl (fun j _ => ?_)
      by_cases hCG : kw / 2 ≤ w + j ∧ w + j < kw / 2 + img.W
      · rw [if_pos ⟨by omega, hCG.1, hCG.2⟩, if_pos ⟨hRG.1, hRG.2, hCG.1, hCG.2⟩]
        ring
      · rw [if_neg (by tauto), if_neg (by tauto)]
        ring
    · rw [if_neg hRG, mul_zero]
      symm
      refine Finset.sum_eq_zero (fun j _ => ?_)
      rw [if_neg (by tauto), mul_zero]
  · simp only [separable_filter2, cc2_px, cc2_H, cc2_W, outer_self, np_transpose2]
    rw [if_neg hb, if_neg hb]

theorem sep2_eq (img kernel1d : Img2 α) (hk : kernel1d.H = 1) :
    separable_filter2 img kernel1d =
      cross_correlation_2d_r2 img (outer_self kernel1d) := by
  obtain ⟨kh, kw, kf⟩ := kernel1d
  dsimp only at hk
  subst hk
  exact sep2_core img kw kf

theorem cc3_plane_eq (img : Img3 α) (kernel : Img2 α) (c : ℕ) (hc : c < 3) :
    (cross_correlation_2d_r3 img kernel).plane c =
      cross_correlation_2d_r2 (img.plane c) kernel := by
  refine Img2.ext rfl rfl ?_
  funext y x
  exact cc3_px_plane img kernel y x c hc

theorem sep3_eq (img : Img3 α) (kernel1d : Img2 α) (hk : kernel1d.H = 1) :
    separable_filter3 img kernel1d =
      cross_correlation_2d_r3 img (outer_self kernel1d) := by
  refine Img3.ext rfl rfl rfl ?_
  funext y x c
  by_cases hc : c < 3
  · simp only [separable_filter3]
    rw [cc3_px_plane _ _ y x c hc, cc3_plane_eq img kernel1d c hc]
    have h3 : (separable_filter2 (img.plane c) kernel1d).px y x =
        (cross_correlation_2d_r2 (img.plane c) (outer_self kernel1d)).px y x := by
      rw [sep2_eq (img.plane c) kernel1d hk]
    rw [cc3_px_plane img (outer_self kernel1d) y x c hc]
    exact h3
  · simp only [separable_filter3]
    exact (cc3_px_out _ _ _ _ _ (by omega)).trans
      (cc3_px_out img (outer_self kernel1d) y x c (by omega)).symm

/-- C3: for every image (rank-2, and rank-3 where both sides dispatch per
channel identically) and every 1-by-n row kernel with n odd,
`separable_filter(image, kernel1d)` equals the full 2D cross-correlation of
the image with the outer product of the kernel with itself. -/
theorem claim3_separable_outer :
    (∀ (img kernel1d : Img2 ℚ), kernel1d.H = 1 → Odd kernel1d.W →
      separable_filter2 img kernel1d = cross_correlation_2d_r2 img (outer_self kernel1d)) ∧
    (∀ (img : Img3 ℚ) (kernel1d : Img2 ℚ), kernel1d.H = 1 → Odd kernel1d.W →
      separable_filter3 img kernel1d = cross_correlation_2d_r3 img (outer_self kernel1d)) :=
  ⟨fun img k hk _ => sep2_eq img k hk, fun img k hk _ => sep3_eq img k hk⟩

/-- C3 witness: the equivalence instantiated on a concrete 2x3 image and the
concrete 1x3 row kernel (odd width 3). -/
theorem claim3_witness :
    separable_filter2 t2img t3ker = cross_correlation_2d_r2 t2img (outer_self t3ker) :=
  claim3_separable_outer.1 t2img t3ker rfl (by decide)

/-- C4: for every image (either rank) and every sigma and odd size,
`high_pass(image, sigma, size) + low_pass(image, sigma, size)` equals the
image exactly, because `high_pass` is the image minus the same convolution
that `low_pass` computes with identical parameters. -/
theorem claim4_high_plus_low (img2 : Img2 ℝ) (img3 : Img3 ℝ) (sigma : ℝ) (size : ℕ)
    (hodd : Odd size) :
    high_pass2 img2 sigma size + low_pass2 img2 sigma size = img2 ∧
    high_pass3 img3 sigma size + low_pass3 img3 sigma size = img3 := by
  constructor
  · refine Img2.ext rfl rfl ?_
    funext y x
    change img2.px y x -
        (convolve_2d_r2 img2 (gaussian_blur_kernel_2d sigma size size)).px y x +
        (convolve_2d_r2 img2 (gaussian_blur_kernel_2d sigma size size)).px y x = img2.px y x
    ring
  · refine Img3.ext rfl rfl rfl ?_
    funext y x c
    change img3.px y x c -
        (convolve_2d_r3 img3 (gaussian_blur_kernel_2d sigma size size)).px y x c +
        (convolve_2d_r3 img3 (gaussian_blur_kernel_2d sigma size size)).px y x c = img3.px y x c
    ring

/-- C4 witness: the identity instantiated on concrete rank-2 and rank-3
images with sigma 1 and odd size 3. -/
theorem claim4_witness :
    high_pass2 r2img 1 3 + low_pass2 r2img 1 3 = r2img ∧
    high_pass3 r3img 1 3 + low_pass3 r3img 1 3 = r3img :=
  claim4_high_plus_low r2img r3img 1 3 (by decide)

/-- C5: for every sigma > 0 and odd positive height and width, the entries
of `gaussian_blur_kernel_2d(sigma, height, width)` sum to exactly 1, each
entry (y, x) being `(1/(2*pi*sigma)) * exp(-((x - width//2)^2 +
(y - height//2)^2)/(2*sigma^2))` divided by the total sum of all such
values. -/
theorem claim5_gaussian_sums_to_one (sigma : ℝ) (height width : ℕ)
    (hs : 0 < sigma) (hh : Odd height) (hw : Odd width) :
    np_sum2 (gaussian_blur_kernel_2d sigma height width) = 1 ∧
    ∀ y x : ℕ, (gaussian_blur_kernel_2d sigma height width).px y x =
      ((1 / (2 * Real.pi * sigma)) *
        Real.exp (-(((x : ℝ) - (width / 2 : ℕ)) ^ 2 + ((y : ℝ) - (height / 2 : ℕ)) ^ 2) /
          (2 * sigma ^ 2))) /
        np_sum2 (gaussian_blur_raw sigma height width) := by
  have hpos : 0 < np_sum2 (gaussian_blur_raw sigma height width) := by
    have h0 : 0 < height := by rcases hh with ⟨k, hk⟩; omega
    have w0 : 0 < width := by rcases hw with ⟨k, hk⟩; omega
    simp only [np_sum2, gaussian_blur_raw]
    refine Finset.sum_pos (fun y _ => Finset.sum_pos (fun x _ => ?_) ?_) ?_
    · have h2 : 0 < 1 / (2 * Real.pi * sigma) := by positivity
      exact mul_pos h2 (Real.exp_pos _)
    · exact Finset.nonempty_range_iff.mpr (by omega)
    · exact Finset.nonempty_range_iff.mpr (by omega)
  have key : np_sum2 (gaussian_blur_kernel_2d sigma height width) =
      np_sum2 (gaussian_blur_raw sigma height width) /
        np_sum2 (gaussian_blur_raw sigma height width) := by
    simp only [np_sum2, gaussian_blur_kernel_2d, gaussian_blur_raw, ← Finset.sum_div]
  exact ⟨by rw [key, div_self (ne_of_gt hpos)], fun y x => rfl⟩

/-- C5 witness: the normalisation applied with sigma 1 and the odd
dimensions 1 x 1. -/
theorem claim5_witness : np_sum2 (gaussian_blur_kernel_2d 1 1 1) = 1 :=
  (claim5_gaussian_sums_to_one 1 1 1 (by norm_num) (by decide) (by decide)).1

theorem gau_pyr_zero (img : Img3 ℚ) : gau_pyr img 0 = img := rfl

theorem img3_sub_add_cancel (a b : Img3 ℚ) : a - b + b = a := by
  refine Img3.ext rfl rfl rfl ?_
  funext y x c
  change a.px y x c - b.px y x c + b.px y x c = a.px y x c
  ring

theorem reconstruct_sum_cons (a : Img3 ℚ) (l : List (Img3 ℚ)) (hl : l ≠ []) :
    reconstruct_sum (a :: l) = a + upsample_nn (reconstruct_sum l) := by
  cases l with
  | nil => exact absurd rfl hl
  | cons b t => rfl

theorem recon_gau_aux (img : Img3 ℚ) :
    ∀ n k : ℕ, reconstruct_sum
      ((List.range n).map
          (fun i => gau_pyr img (k + i) - upsample_nn (gau_pyr img (k + i + 1))) ++
        [gau_pyr img (k + n)]) = gau_pyr img k := by
  intro n
  induction n with
  | zero =>
    intro k
    simp [reconstruct_sum]
  | succ n ih =>
    intro k
    rw [List.range_succ_eq_map, List.map_cons, List.map_map]
    have hfun : (fun i => gau_pyr img (k + i) - upsample_nn (gau_pyr img (k + i + 1))) ∘
          Nat.succ
        = fun i => gau_pyr img (k + 1 + i) - upsample_nn (gau_pyr img (k + 1 + i + 1)) := by
      funext i
      simp only [Function.comp_apply]
      have h1 : k + Nat.succ i = k + 1 + i := by omega
      rw [h1]
    have h3 : k + (n + 1) = k + 1 + n := by omega
    rw [hfun, h3, List.cons_append, reconstruct_sum_cons _ _ (by simp), ih (k + 1)]
    simp only [Nat.add_zero]
    exact img3_sub_add_cancel _ _

theorem construct_laplacian_eq (img : Img3 ℚ) (levels : ℕ)
    (hH : img.H % 2 ^ (levels - 1) = 0) (hW : img.W % 2 ^ (levels - 1) = 0) :
    construct_laplacian img levels =
      some ((List.range (levels - 1)).map
          (fun k => gau_pyr img k - upsample_nn (gau_pyr img (k + 1)))
        ++ [gau_pyr img (levels - 1)]) := by
  unfold construct_laplacian
  rw [if_pos ⟨hH, hW⟩]

theorem reconstruct_none_of_cons (a : Img3 ℚ) (l : List (Img3 ℚ)) :
    reconstruct_laplacian (a :: l) none = some (reconstruct_sum (a :: l)) := rfl

/-- C1: for every 3-channel image whose height and width are divisible by
`2^(levels-1)` and every `levels` in {1,2,3,4}, reconstructing the
Laplacian pyramid with no weights recovers the original image exactly
(exact rational arithmetic models "floating-point tolerance aside"). -/
theorem claim1_roundtrip (img : Img3 ℚ) (levels : ℕ)
    (hlev : levels = 1 ∨ levels = 2 ∨ levels = 3 ∨ levels = 4)
    (hH : img.H % 2 ^ (levels - 1) = 0) (hW : img.W % 2 ^ (levels - 1) = 0)
    (hC : img.C = 3) :
    (construct_laplacian img levels).bind (fun pyr => reconstruct_laplacian pyr none) =
      some img := by
  rw [construct_laplacian_eq img levels hH hW]
  have haux := recon_gau_aux img (levels - 1) 0
  simp only [Nat.zero_add] at haux
  rcases hlist : (List.range (levels - 1)).map
      (fun k => gau_pyr img k - upsample_nn (gau_pyr img (k + 1))) with _ | ⟨a, t⟩
  · have h0 : levels - 1 = 0 := by
      have hr := List.map_eq_nil_iff.mp hlist
      exact List.range_eq_nil.mp hr
    rw [h0]
    simp only [List.nil_append]
    show reconstruct_laplacian [gau_pyr img 0] none = some img
    rw [reconstruct_none_of_cons]
    congr 1
  · show reconstruct_laplacian ((a :: t) ++ [gau_pyr img (levels - 1)]) none = some img
    rw [List.cons_append, reconstruct_none_of_cons]
    congr 1
    rw [← List.cons_append, ← hlist, haux, gau_pyr_zero]

/-- C1 witness: the round trip on a concrete 2x2x3 image with levels = 2. -/
theorem claim1_witness :
    (construct_laplacian t3img 2).bind (fun pyr => reconstruct_laplacian pyr none) =
      some t3img :=
  claim1_roundtrip t3img 2 (Or.inr (Or.inl rfl)) (by decide) (by decide) rfl

/-- C6: for a positive number of levels, `construct_laplacian` fails its
assertion (modelled as returning `none` before any level is built) exactly
when the image height or width is not divisible by `2^(levels-1)`. -/
theorem claim6_assertion (img : Img3 ℚ) (levels : ℕ) (hpos : 1 ≤ levels) :
    construct_laplacian img levels = none ↔
      ¬ (img.H % 2 ^ (levels - 1) = 0 ∧ img.W % 2 ^ (levels - 1) = 0) := by
  unfold construct_laplacian
  split_ifs with h
  · simp [h]
  · simp [h]

/-- C6 witness: the assertion characterisation on a concrete 2x2x3 image
with levels = 2 (both dimensions divisible by 2, so no failure). -/
theorem claim6_witness :
    construct_laplacian t3img 2 = none ↔
      ¬ (t3img.H % 2 ^ (2 - 1) = 0 ∧ t3img.W % 2 ^ (2 - 1) = 0) :=
  claim6_assertion t3img 2 (by norm_num)

theorem img3_scale_one (a : Img3 ℚ) : a.scale 1 = a := by
  refine Img3.ext rfl rfl rfl ?_
  funext y x c
  exact mul_one _

theorem zip_scale_ones (l : List (Img3 ℚ)) :
    List.zipWith (fun im w => Img3.scale im w) l (List.replicate l.length 1) = l := by
  induction l with
  | nil => rfl
  | cons a t ih => simp [List.replicate_succ, img3_scale_one, ih]

/-- C9: for every pyramid produced by `construct_laplacian`, reconstructing
with the all-ones weights list of the pyramid's length returns the same
image as reconstructing with no weights. -/
theorem claim9_unit_weights (img : Img3 ℚ) (levels : ℕ) (pyr : List (Img3 ℚ))
    (h : construct_laplacian img levels = some pyr) :
    reconstruct_laplacian pyr (some (List.replicate pyr.length 1)) =
      reconstruct_laplacian pyr none := by
  have hne : pyr ≠ [] := by
    unfold construct_laplacian at h
    split_ifs at h with hc
    simp only [Option.some.injEq] at h
    rw [← h]
    simp
  rcases pyr with _ | ⟨a, t⟩
  · exact absurd rfl hne
  · show (if (a :: t).length ≤ (List.replicate (a :: t).length (1 : ℚ)).length then
        some (reconstruct_sum
          (List.zipWith (fun im w => Img3.scale im w) (a :: t)
            (List.replicate (a :: t).length 1)))
      else none) = some (reconstruct_sum (a :: t))
    rw [List.length_replicate, if_pos (le_refl _), zip_scale_ones]

/-- C9 witness: unit weights versus no weights on the one-level pyramid of
a concrete image (which `construct_laplacian` indeed produces). -/
theorem claim9_witness :
    reconstruct_laplacian [t3img] (some (List.replicate 1 (1 : ℚ))) =
      reconstruct_laplacian [t3img] none :=
  claim9_unit_weights t3img 1 [t3img] (by
    unfold construct_laplacian
    rw [if_pos (by decide)]
    simp [gau_pyr_zero])

/-- C7 counterexample: at `levels = 1` the list returned by
`construct_laplacian` consists of Gaussian level 0, which is the caller's
input array itself (`gau_pyr.append(img)`), so the returned pyramid shares
a buffer with the input image, contradicting the claim's "including
levels = 1". -/
theorem claim7_counterexample : BufProv.input ∈ construct_laplacian_prov 1 := by decide

/-- C7 (amended): for every `levels ≥ 2` the list returned by
`construct_laplacian` shares no buffer with the caller's input image (the
finer levels are freshly allocated subtraction results and the coarsest
level is a view of a freshly allocated blur output); at `levels = 1` the
single returned level aliases the input.  `reconstruct_laplacian` operates
on a deep copy, so the caller's pyramid is never mutated (immediate in this
pure model). -/
theorem claim7_prov_amended (levels : ℕ) (h2 : 2 ≤ levels) :
    BufProv.input ∉ construct_laplacian_prov levels := by
  intro hmem
  unfold construct_laplacian_prov at hmem
  rw [List.mem_append] at hmem
  rcases hmem with hmem | hmem
  · rcases List.mem_map.mp hmem with ⟨i, _, hi⟩
    exact BufProv.noConfusion hi
  · rw [List.mem_singleton] at hmem
    obtain ⟨m, hm⟩ : ∃ m, levels - 1 = m + 1 := ⟨levels - 2, by omega⟩
    rw [hm] at hmem
    simp [gau_pyr_prov, decimate_prov, separable_filter_prov] at hmem

/-- C7 witness: no input aliasing at the concrete value levels = 2. -/
theorem claim7_witness : BufProv.input ∉ construct_laplacian_prov 2 :=
  claim7_prov_amended 2 (by norm_num)

/-- C8 counterexample: with a floating-point `img1` and a uint8 `img2`, the
normalisation stage of `create_hybrid_image` (which tests only
`img1.dtype`) leaves `img2` completely untouched: its sample stays 255
instead of the claimed 255/255, so the two inputs are NOT handled
independently of each other's sample type. -/
theorem claim8_counterexample :
    cexUintImg.dtype = DType.uint8 ∧ cexFloatImg.dtype ≠ DType.uint8 ∧
    (hybrid_normalize cexFloatImg cexUintImg).2 = cexUintImg ∧
    cexUintImg.data.px 0 0 0 = 255 ∧ (255 : ℝ) ≠ 255 / 255 := by
  refine ⟨rfl, by simp [cexFloatImg], ?_, rfl, by norm_num⟩
  unfold hybrid_normalize
  rw [if_neg (by simp [cexFloatImg])]

/-- C8 (amended): in `create_hybrid_image`, both input images are divided
by 255 (and tagged float32) if and only if the FIRST image's samples are
8-bit unsigned integers; the second image's own sample type is never
consulted. -/
theorem claim8_normalize_amended (img1 img2 : DImg) :
    (img1.dtype = DType.uint8 →
      hybrid_normalize img1 img2 =
        (⟨DType.float32, ⟨img1.data.H, img1.data.W, img1.data.C,
            fun y x c => img1.data.px y x c / 255⟩⟩,
         ⟨DType.float32, ⟨img2.data.H, img2.data.W, img2.data.C,
            fun y x c => img2.data.px y x c / 255⟩⟩)) ∧
    (img1.dtype ≠ DType.uint8 → hybrid_normalize img1 img2 = (img1, img2)) := by
  constructor
  · intro h1
    unfold hybrid_normalize
    rw [if_pos h1]
  · intro h1
    unfold hybrid_normalize
    rw [if_neg h1]

/-- C8 witness: the amended statement applied to two concrete uint8 images
(the first is uint8, so both get divided by 255). -/
theorem claim8_witness :
    hybrid_normalize cexUintImg cexUintImg =
      (⟨DType.float32, ⟨cexUintImg.data.H, cexUintImg.data.W, cexUintImg.data.C,
          fun y x c => cexUintImg.data.px y x c / 255⟩⟩,
       ⟨DType.float32, ⟨cexUintImg.data.H, cexUintImg.data.W, cexUintImg.data.C,
          fun y x c => cexUintImg.data.px y x c / 255⟩⟩) :=
  (claim8_normalize_amended cexUintImg cexUintImg).1 rfl

/-- C10: for every input array whose rank is neither 2 nor 3,
`cross_correlation_2d` raises no error and returns the untouched
`np.zeros_like(img, dtype='float64')` buffer: same shape as the input,
float64, and all entries zero. -/
theorem claim10_rank_dispatch (img kernel : NdArray)
    (h2 : img.shape.length ≠ 2) (h3 : img.shape.length ≠ 3) :
    cross_correlation_2d_nd img kernel = some (np_zeros_like img) ∧
    (np_zeros_like img).shape = img.shape ∧
    (np_zeros_like img).dtype = DType.float64 ∧
    ∀ idx, (np_zeros_like img).val idx = 0 := by
  refine ⟨?_, rfl, rfl, fun _ => rfl⟩
  rcases img with ⟨d, s, v⟩
  rcases s with _ | ⟨a, s⟩
  · rfl
  rcases s with _ | ⟨b, s⟩
  · rfl
  rcases s with _ | ⟨c, s⟩
  · exact absurd rfl h2
  rcases s with _ | ⟨e, s⟩
  · exact absurd rfl h3
  · rfl

/-- C10 witness: on a concrete rank-1 array the function returns the
all-zero float64 buffer of the same shape. -/
theorem claim10_witness :
    cross_correlation_2d_nd rank1arr rank2ker = some (np_zeros_like rank1arr) ∧
    (np_zeros_like rank1arr).val [0] = 0 := by
  have h := claim10_rank_dispatch rank1arr rank2ker (by decide) (by decide)
  exact ⟨h.1, h.2.2.2 [0]⟩
